import Mathlib

/-!
Shallow embedding of `ordmap.go` from eriktate/go-ordmap.

The Go type `OrdMap[K comparable, V any]` holds a `lookup map[K]int` and a
slice `data []Entry[K, V]`, guarded by an `RWMutex`.  We model the
single-threaded semantics of every operation: the mutex and the
`unsafe` flag only select a locking path and do not change the
sequential result, so they are not represented.  The Go map `lookup`
becomes a function `K → Option Nat`; the slice `data` becomes a
`List (Entry K V)`.  Go operations that can panic (out-of-range slice
indexing or slicing) return `Option`: `none` models a runtime panic.
Go zero values (produced by `make([]Entry[K,V], n)` and by `Get` on a
missing key) are modelled by `Inhabited.default`.
-/

namespace GoOrdmap

/-- Embeds Go `Entry[K comparable, V any]`: a key/value pair. -/
structure Entry (K V : Type) where
  Key : K
  Value : V
deriving DecidableEq

instance [Inhabited K] [Inhabited V] : Inhabited (Entry K V) :=
  ⟨⟨default, default⟩⟩

/-- Embeds the data rows of Go `OrdMap[K, V]`: `lookup map[K]int` as a
function into `Option Nat`, and `data []Entry[K, V]` as a list. -/
structure OrdMap (K V : Type) where
  lookup : K → Option Nat
  data : List (Entry K V)

variable {K V : Type}

/-- Go map write `m[k] = i`. -/
def mapSet [DecidableEq K] (m : K → Option Nat) (k : K) (i : Nat) : K → Option Nat :=
  fun q => if q = k then some i else m q

/-- Go map delete `delete(m, k)`. -/
def mapDel [DecidableEq K] (m : K → Option Nat) (k : K) : K → Option Nat :=
  fun q => if q = k then none else m q

/-- Embeds Go `New(initialSize int)`: `make(map[K]int)` is the empty lookup,
and `make([]Entry[K, V], initialSize)` is a slice of LENGTH `initialSize`
filled with zero-valued entries (not a capacity reservation). -/
def New [Inhabited K] [Inhabited V] (initialSize : Nat) : OrdMap K V :=
  { lookup := fun _ => none
    data := List.replicate initialSize ⟨default, default⟩ }

/-- Embeds Go `NewUnsafe(initialSize int)`: identical storage to `New`;
the flag it sets only selects the lock-free path, which has the same
sequential semantics. -/
def NewUnguarded [Inhabited K] [Inhabited V] (initialSize : Nat) : OrdMap K V :=
  { lookup := fun _ => none
    data := List.replicate initialSize ⟨default, default⟩ }

/-- Embeds Go `Get(key K) (V, bool)`: lookup miss returns the zero value and
`false`; a hit reads `om.data[idx].Value`, which panics (`none`) when the
stored index is out of range. -/
def Get [DecidableEq K] [Inhabited K] [Inhabited V] (om : OrdMap K V) (key : K) :
    Option (V × Bool) :=
  match om.lookup key with
  | none => some (default, false)
  | some idx =>
    if idx < om.data.length then some ((om.data.getD idx default).Value, true)
    else none

/-- Embeds Go `Index(key K) (int, bool)`: the `(idx, ok)` pair as an option. -/
def Index [DecidableEq K] (om : OrdMap K V) (key : K) : Option Nat :=
  om.lookup key

/-- Embeds Go `Has(key K) bool`. -/
def Has [DecidableEq K] (om : OrdMap K V) (key : K) : Bool :=
  (om.lookup key).isSome

/-- Embeds Go `Len() int`. -/
def Len (om : OrdMap K V) : Nat :=
  om.data.length

/-- Embeds Go `Entries() []Entry[K, V]`: returns the data slice. -/
def Entries (om : OrdMap K V) : List (Entry K V) :=
  om.data

/-- Embeds the sequential yield order of Go `EntryIter() iter.Seq2[K, V]`:
the (key, value) pairs of `data` in slice order. -/
def EntryIter (om : OrdMap K V) : List (K × V) :=
  om.data.map (fun e => (e.Key, e.Value))

/-- Embeds Go `BulkSet(entries ...Entry[K, V])`.  For each entry in order:
if its key is already in `lookup`, the Go code does `om.data[idx] = entry`
(panicking, `none`, when `idx` is out of range) and then `return`s,
abandoning the remaining entries; otherwise it records
`om.lookup[entry.Key] = len(om.data)` and appends the entry. -/
def BulkSet [DecidableEq K] : OrdMap K V → List (Entry K V) → Option (OrdMap K V)
  | om, [] => some om
  | om, e :: rest =>
    match om.lookup e.Key with
    | some idx =>
      if idx < om.data.length then
        some { om with data := om.data.set idx e }
      else none
    | none =>
      BulkSet
        { lookup := mapSet om.lookup e.Key om.data.length
          data := om.data ++ [e] }
        rest

/-- Embeds Go `Set(key K, val V)`: forwards to `BulkSet` with one entry. -/
def Set [DecidableEq K] (om : OrdMap K V) (key : K) (val : V) : Option (OrdMap K V) :=
  BulkSet om [⟨key, val⟩]

/-- Embeds Go `Delete(key K)`.  A lookup miss is a no-op.  Otherwise the
key is removed from `lookup` (the deferred `delete`) and the data slice is
respliced: `om.data[1:]` when `idx == 0` (panics when the slice is empty),
`om.data[0 : len-1]` when `idx == len(om.data)` (the stale-index branch),
and `append(om.data[0:idx], om.data[idx+1:]...)` otherwise, which panics
(`none`) when `idx` exceeds the slice length.  No surviving lookup entry
is reindexed. -/
def Delete [DecidableEq K] (om : OrdMap K V) (key : K) : Option (OrdMap K V) :=
  match om.lookup key with
  | none => some om
  | some idx =>
    if idx = 0 then
      if om.data.length = 0 then none
      else some { lookup := mapDel om.lookup key, data := om.data.drop 1 }
    else if idx = om.data.length then
      some { lookup := mapDel om.lookup key, data := om.data.take (om.data.length - 1) }
    else
      if idx < om.data.length then
        some { lookup := mapDel om.lookup key
               data := om.data.take idx ++ om.data.drop (idx + 1) }
      else none

/-- A client call against the public mutating surface. -/
inductive Op (K V : Type) where
  | set (key : K) (val : V)
  | bulk (entries : List (Entry K V))
  | del (key : K)

/-- Run one operation. -/
def applyOp [DecidableEq K] (om : OrdMap K V) : Op K V → Option (OrdMap K V)
  | .set k v => Set om k v
  | .bulk es => BulkSet om es
  | .del k => Delete om k

/-- Run a list of operations left to right; `none` models a Go panic. -/
def runOps [DecidableEq K] : OrdMap K V → List (Op K V) → Option (OrdMap K V)
  | om, [] => some om
  | om, op :: rest =>
    match applyOp om op with
    | none => none
    | some om2 => runOps om2 rest

/-- Apply `Set` for each pair in order (a client calling `Set` repeatedly). -/
def setList [DecidableEq K] : OrdMap K V → List (K × V) → Option (OrdMap K V)
  | om, [] => some om
  | om, p :: rest =>
    match Set om p.1 p.2 with
    | none => none
    | some om2 => setList om2 rest

/-! Helper lemmas about the embedded operations. -/

@[simp]
theorem mapSet_same [DecidableEq K] (m : K → Option Nat) (k : K) (i : Nat) :
    mapSet m k i k = some i := by
  simp [mapSet]

theorem mapSet_other [DecidableEq K] (m : K → Option Nat) (k : K) (i : Nat)
    (q : K) (h : q ≠ k) : mapSet m k i q = m q := by
  simp [mapSet, h]

theorem mapDel_other [DecidableEq K] (m : K → Option Nat) (k : K)
    (q : K) (h : q ≠ k) : mapDel m k q = m q := by
  simp [mapDel, h]

/-- Setting a list slot to the element it already holds is the identity. -/
theorem list_set_self {α : Type} :
    ∀ (l : List α) (i : Nat) (h : i < l.length), l.set i (l.get ⟨i, h⟩) = l
  | _ :: _, 0, _ => rfl
  | a :: l, i + 1, h =>
    congrArg (a :: ·) (list_set_self l i (Nat.lt_of_succ_lt_succ h))

/-- Go `Get` on a key whose recorded position is in range reads the entry at
that position. -/
theorem get_found [DecidableEq K] [Inhabited K] [Inhabited V] (om : OrdMap K V)
    (k : K) (idx : Nat) (h : om.lookup k = some idx) (hlt : idx < om.data.length) :
    Get om k = some ((om.data.getD idx default).Value, true) := by
  simp [Get, h, hlt]

/-- Go `Get` on a key absent from `lookup` returns the zero value and `false`. -/
theorem get_missing [DecidableEq K] [Inhabited K] [Inhabited V] (om : OrdMap K V)
    (k : K) (h : om.lookup k = none) : Get om k = some (default, false) := by
  simp [Get, h]

/-- Go `Set` on a key absent from `lookup` appends the entry and records its
position. -/
theorem set_fresh [DecidableEq K] (om : OrdMap K V) (k : K) (v : V)
    (h : om.lookup k = none) :
    Set om k v = some
      { lookup := mapSet om.lookup k om.data.length
        data := om.data ++ [⟨k, v⟩] } := by
  simp [Set, BulkSet, h]

/-- Go `Set` on a key present at an in-range position overwrites the entry in
place, leaving `lookup` and the data length untouched. -/
theorem set_existing [DecidableEq K] (om : OrdMap K V) (k : K) (v : V) (idx : Nat)
    (h : om.lookup k = some idx) (hlt : idx < om.data.length) :
    Set om k v = some { om with data := om.data.set idx ⟨k, v⟩ } := by
  simp [Set, BulkSet, h, hlt]

/-- Master lemma for fresh bulk insertion: when the supplied keys are pairwise
distinct and none is present, `BulkSet` appends every entry in order, leaves
other lookups alone, and afterwards every supplied key reads back its supplied
value. -/
theorem bulkSet_fresh [DecidableEq K] [Inhabited K] [Inhabited V] (es : List (Entry K V)) :
    ∀ om : OrdMap K V,
      (es.map Entry.Key).Nodup →
      (∀ e ∈ es, om.lookup e.Key = none) →
      ∃ om2, BulkSet om es = some om2 ∧
        om2.data = om.data ++ es ∧
        (∀ k, (∀ e ∈ es, e.Key ≠ k) → om2.lookup k = om.lookup k) ∧
        ∀ e ∈ es, Get om2 e.Key = some (e.Value, true) := by
  induction es with
  | nil =>
    intro om _ _
    exact ⟨om, rfl, by simp, fun k _ => rfl, by simp⟩
  | cons e rest ih =>
    intro om hnd hfresh
    have he : om.lookup e.Key = none := hfresh e (by simp)
    have hnd2 : e.Key ∉ rest.map Entry.Key ∧ (rest.map Entry.Key).Nodup := by
      rw [List.map_cons, List.nodup_cons] at hnd
      exact hnd
    have hkey : e.Key ∉ rest.map Entry.Key := hnd2.1
    have hkne : ∀ e2 ∈ rest, e2.Key ≠ e.Key := by
      intro e2 h2 hc
      exact hkey (hc ▸ List.mem_map_of_mem Entry.Key h2)
    have hstep : BulkSet om (e :: rest) =
        BulkSet { lookup := mapSet om.lookup e.Key om.data.length
                  data := om.data ++ [e] } rest := by
      simp [BulkSet, he]
    obtain ⟨om2, h1, h2, h3, h4⟩ :=
      ih { lookup := mapSet om.lookup e.Key om.data.length, data := om.data ++ [e] }
        hnd2.2
        (by
          intro e2 h2m
          show mapSet om.lookup e.Key om.data.length e2.Key = none
          rw [mapSet_other _ _ _ _ (hkne e2 h2m)]
          exact hfresh e2 (List.mem_cons_of_mem e h2m))
    have hdata : om2.data = om.data ++ e :: rest := by
      rw [h2]; simp
    have hlook_e : om2.lookup e.Key = some om.data.length := by
      rw [h3 e.Key hkne]; simp
    refine ⟨om2, hstep ▸ h1, hdata, ?_, ?_⟩
    · intro k hk
      have hek : e.Key ≠ k := hk e (by simp)
      rw [h3 k (fun e2 h2m => hk e2 (List.mem_cons_of_mem e h2m))]
      exact mapSet_other _ _ _ _ (fun hq => hek hq.symm)
    · intro e2 h2m
      rcases List.mem_cons.mp h2m with heq | hmem
      · subst heq
        have hlen : om.data.length < om2.data.length := by
          rw [hdata]; simp
        rw [get_found om2 e2.Key om.data.length hlook_e hlen, hdata,
          List.getD_append_right om.data (e2 :: rest) default om.data.length
            (Nat.le_refl _)]
        simp
      · exact h4 e2 hmem

/-- Applying `Set` once per pair is the same as one `BulkSet` call when the
keys are pairwise distinct and all absent: every step takes the append
branch, so the early-return branch is never reached. -/
theorem setList_eq_bulkSet [DecidableEq K] (pairs : List (K × V)) :
    ∀ om : OrdMap K V,
      (pairs.map Prod.fst).Nodup →
      (∀ p ∈ pairs, om.lookup p.1 = none) →
      setList om pairs = BulkSet om (pairs.map fun p => ⟨p.1, p.2⟩) := by
  induction pairs with
  | nil => intro om _ _; rfl
  | cons p rest ih =>
    intro om hnd hfresh
    have hp : om.lookup p.1 = none := hfresh p (by simp)
    have hnd2 : p.1 ∉ rest.map Prod.fst ∧ (rest.map Prod.fst).Nodup := by
      rw [List.map_cons, List.nodup_cons] at hnd
      exact hnd
    have hpne : ∀ q ∈ rest, q.1 ≠ p.1 := by
      intro q hq hc
      exact hnd2.1 (hc ▸ List.mem_map_of_mem Prod.fst hq)
    have hfresh1 : ∀ q ∈ rest,
        (OrdMap.mk (mapSet om.lookup p.1 om.data.length)
          (om.data ++ [⟨p.1, p.2⟩]) : OrdMap K V).lookup q.1 = none := by
      intro q hq
      show mapSet om.lookup p.1 om.data.length q.1 = none
      rw [mapSet_other _ _ _ _ (hpne q hq)]
      exact hfresh q (List.mem_cons_of_mem p hq)
    calc setList om (p :: rest)
        = setList (OrdMap.mk (mapSet om.lookup p.1 om.data.length)
            (om.data ++ [⟨p.1, p.2⟩])) rest := by
          simp [setList, set_fresh om p.1 p.2 hp]
      _ = BulkSet (OrdMap.mk (mapSet om.lookup p.1 om.data.length)
            (om.data ++ [⟨p.1, p.2⟩])) (rest.map fun q => ⟨q.1, q.2⟩) :=
          ih _ hnd2.2 hfresh1
      _ = BulkSet om ((p :: rest).map fun q => ⟨q.1, q.2⟩) := by
          rw [List.map_cons]
          show _ = BulkSet om (⟨p.1, p.2⟩ :: rest.map fun q => ⟨q.1, q.2⟩)
          simp [BulkSet, hp]

/-- Consistency of `lookup` with `data`: every recorded position is in range
and holds an entry with the recorded key, and keys without a recorded
position do not occur in `data`.  This is the state of affairs maintained by
set-only histories (the spec's invariants 1 and 2). -/
def Inv (om : OrdMap K V) : Prop :=
  (∀ k i, om.lookup k = some i → ∃ e, om.data[i]? = some e ∧ e.Key = k) ∧
  (∀ k, om.lookup k = none → k ∉ om.data.map Entry.Key)

/-- The canonical fresh empty map satisfies the consistency invariant. -/
theorem inv_new0 [DecidableEq K] [Inhabited K] [Inhabited V] :
    Inv (New 0 : OrdMap K V) := by
  constructor
  · intro k i h
    exact absurd h (by simp [New])
  · intro k _
    simp [New]

/-- First-insertion order of a key history, starting from the keys already
present in `acc`: a key is appended the first time it is seen and kept in
place afterwards. -/
def firstInsertionOrder [DecidableEq K] : List K → List K → List K
  | acc, [] => acc
  | acc, k :: rest =>
    if k ∈ acc then firstInsertionOrder acc rest
    else firstInsertionOrder (acc ++ [k]) rest

/-- Any history of `Set` calls on a consistent map succeeds, preserves the
consistency invariant, and leaves the data keys in first-insertion order. -/
theorem setList_keys [DecidableEq K] [Inhabited K] [Inhabited V]
    (pairs : List (K × V)) :
    ∀ om : OrdMap K V, Inv om →
      ∃ om2, setList om pairs = some om2 ∧ Inv om2 ∧
        om2.data.map Entry.Key =
          firstInsertionOrder (om.data.map Entry.Key) (pairs.map Prod.fst) := by
  induction pairs with
  | nil =>
    intro om hinv
    exact ⟨om, rfl, hinv, rfl⟩
  | cons p rest ih =>
    intro om hinv
    rcases hl : om.lookup p.1 with _ | idx
    · -- fresh key: append branch
      have hmem : p.1 ∉ om.data.map Entry.Key := hinv.2 p.1 hl
      have hinv1 : Inv (OrdMap.mk (mapSet om.lookup p.1 om.data.length)
          (om.data ++ [⟨p.1, p.2⟩]) : OrdMap K V) := by
        constructor
        · intro k i h
          dsimp only at h ⊢
          by_cases hk : k = p.1
          · subst hk
            rw [mapSet_same] at h
            obtain rfl : om.data.length = i := Option.some.inj h
            exact ⟨⟨p.1, p.2⟩, List.getElem?_concat_length om.data ⟨p.1, p.2⟩, rfl⟩
          · rw [mapSet_other _ _ _ _ hk] at h
            obtain ⟨e, he, hek⟩ := hinv.1 k i h
            have hi : i < om.data.length := (List.getElem?_eq_some.mp he).1
            exact ⟨e, by rw [List.getElem?_append_left hi]; exact he, hek⟩
        · intro k h
          dsimp only at h ⊢
          by_cases hk : k = p.1
          · subst hk
            rw [mapSet_same] at h
            exact absurd h (by simp)
          · rw [mapSet_other _ _ _ _ hk] at h
            have := hinv.2 k h
            simp only [List.map_append, List.map_cons, List.map_nil,
              List.mem_append, List.mem_cons, List.not_mem_nil]
            rintro (hc | hc)
            · exact this hc
            · rcases hc with hc | hc
              · exact hk hc
              · exact hc
      obtain ⟨om2, h1, h2, h3⟩ := ih _ hinv1
      refine ⟨om2, ?_, h2, ?_⟩
      · simp [setList, set_fresh om p.1 p.2 hl]
        exact h1
      · rw [h3]
        show _ = firstInsertionOrder (om.data.map Entry.Key)
          (p.1 :: rest.map Prod.fst)
        rw [firstInsertionOrder, if_neg hmem]
        congr 1
        simp
    · -- existing key: overwrite-in-place branch
      obtain ⟨e, he, hek⟩ := hinv.1 p.1 idx hl
      have hlt : idx < om.data.length := (List.getElem?_eq_some.mp he).1
      have hmem : p.1 ∈ om.data.map Entry.Key := by
        rw [← hek]
        exact List.mem_map_of_mem Entry.Key (List.getElem?_mem he)
      have hkeys : (om.data.set idx ⟨p.1, p.2⟩).map Entry.Key =
          om.data.map Entry.Key := by
        rw [List.map_set]
        have hlt2 : idx < (om.data.map Entry.Key).length := by simpa using hlt
        have hgm : (om.data.map Entry.Key).get ⟨idx, hlt2⟩ = p.1 := by
          rw [List.get_map]
          have : om.data.get ⟨idx, hlt⟩ = e := by
            obtain ⟨w, hw⟩ := List.getElem?_eq_some.mp he
            exact hw
          rw [this, hek]
        calc (om.data.map Entry.Key).set idx p.1
            = (om.data.map Entry.Key).set idx
                ((om.data.map Entry.Key).get ⟨idx, hlt2⟩) := by rw [hgm]
          _ = om.data.map Entry.Key := list_set_self _ _ hlt2
      have hinv1 : Inv { om with data := om.data.set idx ⟨p.1, p.2⟩ } := by
        constructor
        · intro k i h
          dsimp only at h ⊢
          by_cases hi : i = idx
          · subst hi
            have hkp : k = p.1 := by
              obtain ⟨e2, he2, he2k⟩ := hinv.1 k i h
              rw [he] at he2
              rw [← he2k, ← Option.some.inj he2, hek]
            subst hkp
            exact ⟨⟨p.1, p.2⟩, by simp [List.getElem?_set_self hlt], rfl⟩
          · obtain ⟨e2, he2, he2k⟩ := hinv.1 k i h
            refine ⟨e2, ?_, he2k⟩
            rw [List.getElem?_set_ne (fun hc => hi hc.symm)]
            exact he2
        · intro k h
          dsimp only at h
          have := hinv.2 k h
          show k ∉ (om.data.set idx ⟨p.1, p.2⟩).map Entry.Key
          rw [hkeys]
          exact this
      obtain ⟨om2, h1, h2, h3⟩ := ih _ hinv1
      refine ⟨om2, ?_, h2, ?_⟩
      · simp [setList, set_existing om p.1 p.2 idx hl hlt]
        exact h1
      · rw [h3]
        show _ = firstInsertionOrder (om.data.map Entry.Key)
          (p.1 :: rest.map Prod.fst)
        rw [firstInsertionOrder, if_pos hmem, hkeys]

/-! Claim theorems. -/

/-- Claim C1, counterexample: `bulk_set(("x",10), ("y",20), ("x",30))` on a
fresh empty map yields `len() == 2` and `get("y") == 20` as claimed, but
`get("x") == 30`, not `10`: the duplicate entry overwrites the first
occurrence's slot before the early return, so the first occurrence does NOT
win. -/
theorem bulkSet_first_occurrence_cex :
    Option.map (fun st => (Len st, Get st "x", Get st "y"))
      (BulkSet (New 0 : OrdMap String Nat) [⟨"x", 10⟩, ⟨"y", 20⟩, ⟨"x", 30⟩])
      = some (2, some (30, true), some (20, true)) ∧
    Option.map (fun st => Get st "x")
      (BulkSet (New 0 : OrdMap String Nat) [⟨"x", 10⟩, ⟨"y", 20⟩, ⟨"x", 30⟩])
      ≠ some (some (10, true)) := by decide

/-- Claim C1, amended: when `BulkSet` reaches an entry whose key is already
present (including one inserted earlier in the same call), it overwrites that
key's slot in place with the new entry — the later duplicate's value wins —
and returns immediately, silently ignoring all remaining entries of the
batch; concretely, `bulk_set(("x",10), ("y",20), ("x",30))` on a fresh empty
map yields `len() == 2`, `get("x") == 30` and `get("y") == 20`. -/
theorem bulkSet_duplicate_overwrites [DecidableEq K] [Inhabited K] [Inhabited V] :
    (∀ (om : OrdMap K V) (e : Entry K V) (rest : List (Entry K V)) (idx : Nat),
      om.lookup e.Key = some idx → idx < om.data.length →
      BulkSet om (e :: rest) = some { om with data := om.data.set idx e }) ∧
    Option.map (fun st => (Len st, Get st "x", Get st "y"))
      (BulkSet (New 0 : OrdMap String Nat) [⟨"x", 10⟩, ⟨"y", 20⟩, ⟨"x", 30⟩])
      = some (2, some (30, true), some (20, true)) := by
  refine ⟨?_, by decide⟩
  intro om e rest idx h hlt
  simp [BulkSet, h, hlt]

/-- Claim C1, witness for the amended theorem's general part, at a concrete
one-entry map holding key "x" at slot 0. -/
theorem bulkSet_duplicate_overwrites_witness :
    BulkSet (OrdMap.mk (fun q => if q = "x" then some 0 else none)
        ([⟨"x", 1⟩] : List (Entry String Nat))) [⟨"x", 5⟩]
      = some { OrdMap.mk (fun q => if q = "x" then some 0 else none)
          ([⟨"x", 1⟩] : List (Entry String Nat)) with
            data := ([⟨"x", 1⟩] : List (Entry String Nat)).set 0 ⟨"x", 5⟩ } :=
  bulkSet_duplicate_overwrites.1 _ ⟨"x", 5⟩ [] 0 (by decide) (by decide)

/-- Claim C2: evaluation at the failing input.  After `set(1,10)`,
`set(2,20)`, `set(3,30)`, `delete(1)` on a fresh map, the code yields
`has(1) == false` and `len() == 2` as the claim demands, but `index_of(2)`
is still `1` (the claim demands `0`), `index_of(3)` is still `2` (the claim
demands `1`, and `2` is not even a valid position in the 2-element
sequence), `get(2)` returns `30` — key 3's value — instead of `20`, and
`get(3)` panics (out-of-range read, modelled `none`) instead of returning
`30`: `Delete` never reindexes the shifted entries. -/
theorem delete_stale_index_eval :
    Option.map (fun st => (Has st 1, Len st, Index st 2))
      (runOps (New 0 : OrdMap Nat Nat) [.set 1 10, .set 2 20, .set 3 30, .del 1])
      = some (false, 2, some 1) ∧
    Option.map (fun st => (Index st 3, Get st 2, Get st 3))
      (runOps (New 0 : OrdMap Nat Nat) [.set 1 10, .set 2 20, .set 3 30, .del 1])
      = some (some 2, some (30, true), none) := by decide

/-- Claim C3: evaluation at the failing input.  After `set(1,10)`,
`set(2,20)`, `delete(1)` — a state reachable by public operations — the
surviving key 2 sits at sequence position 0 (the key list is `[2]`), yet
`index[2]` still holds `1`, which is outside `[0, len(sequence)) = [0, 1)`:
both invariants of the claim are violated. -/
theorem delete_breaks_invariant_eval :
    Option.map (fun st => (st.lookup 2, Len st, st.data.map Entry.Key))
      (runOps (New 0 : OrdMap Nat Nat) [.set 1 10, .set 2 20, .del 1])
      = some (some 1, 1, [2]) := by decide

/-- Claim C4: evaluation at the failing input `initial_capacity = 1`.  Go
`make([]Entry[K, V], initialSize)` creates a slice of LENGTH `initialSize`,
so a fresh map built by either constructor with argument 1 has `len() == 1`
(one zero-valued entry), not `0` as the claim demands; `get`/`has`/
`index_of` do still report "not found" because the lookup map starts
empty. -/
theorem new_initial_capacity_len_eval :
    Len (New 1 : OrdMap Nat Nat) = 1 ∧
    Len (NewUnguarded 1 : OrdMap Nat Nat) = 1 ∧
    (Has (New 1 : OrdMap Nat Nat) 0, Get (New 1 : OrdMap Nat Nat) 0,
      Index (New 1 : OrdMap Nat Nat) 0) = (false, some (0, false), none) := by
  refine ⟨rfl, rfl, ?_⟩
  decide

/-- Claim C5: starting from the fresh empty map, setting pairwise distinct
keys `k₁..kₙ` with values `v₁..vₙ` in order makes `get(kᵢ)` return `vᵢ` for
every i and `len() == n`. -/
theorem setList_distinct_insert_then_read [DecidableEq K] [Inhabited K] [Inhabited V]
    (pairs : List (K × V)) (hnd : (pairs.map Prod.fst).Nodup) :
    ∃ om2, setList (New 0 : OrdMap K V) pairs = some om2 ∧
      Len om2 = pairs.length ∧
      ∀ p ∈ pairs, Get om2 p.1 = some (p.2, true) := by
  have hfresh : ∀ p ∈ pairs, (New 0 : OrdMap K V).lookup p.1 = none := by
    intro p _
    rfl
  have heq := setList_eq_bulkSet pairs (New 0) hnd hfresh
  have hnd2 : (((pairs.map fun p => (⟨p.1, p.2⟩ : Entry K V)).map Entry.Key)).Nodup := by
    simpa [List.map_map, Function.comp] using hnd
  obtain ⟨om2, h1, h2, _h3, h4⟩ :=
    bulkSet_fresh (pairs.map fun p => (⟨p.1, p.2⟩ : Entry K V)) (New 0) hnd2
      (by intro e _; rfl)
  refine ⟨om2, heq ▸ h1, ?_, ?_⟩
  · rw [Len, h2]
    simp [New]
  · intro p hp
    have hm : (⟨p.1, p.2⟩ : Entry K V) ∈ pairs.map fun q => (⟨q.1, q.2⟩ : Entry K V) :=
      List.mem_map_of_mem _ hp
    simpa using h4 _ hm

/-- Claim C5, witness at the concrete run `set(1,10); set(2,20)`. -/
theorem setList_distinct_insert_then_read_witness :
    ∃ om2, setList (New 0 : OrdMap Nat Nat) [(1, 10), (2, 20)] = some om2 ∧
      Len om2 = 2 ∧
      ∀ p ∈ [((1 : Nat), (10 : Nat)), (2, 20)], Get om2 p.1 = some (p.2, true) :=
  setList_distinct_insert_then_read [(1, 10), (2, 20)] (by decide)

/-- Claim C6: for every history of `Set` calls (insertions and updates of
existing keys) on the fresh empty map, `Entries`/`EntryIter` yield the keys
in exactly first-insertion order; and the concrete LOTR run yields exactly
the four inserted pairs in insertion order. -/
theorem entries_first_insertion_order :
    (∀ (K V : Type) [DecidableEq K] [Inhabited K] [Inhabited V]
        (pairs : List (K × V)),
      ∃ om2, setList (New 0 : OrdMap K V) pairs = some om2 ∧
        (Entries om2).map Entry.Key = firstInsertionOrder [] (pairs.map Prod.fst) ∧
        (EntryIter om2).map Prod.fst = firstInsertionOrder [] (pairs.map Prod.fst)) ∧
    Option.map EntryIter (setList (New 0 : OrdMap String String)
        [("Frodo", "The Shire"), ("Legolas", "Mirkwood"), ("Aragorn", "Arnor"),
          ("Gimli", "The Blue Mountains")])
      = some [("Frodo", "The Shire"), ("Legolas", "Mirkwood"), ("Aragorn", "Arnor"),
          ("Gimli", "The Blue Mountains")] := by
  constructor
  · intro K V _ _ _ pairs
    obtain ⟨om2, h1, h2, h3⟩ := setList_keys pairs (New 0) inv_new0
    have hz : ((New 0 : OrdMap K V).data.map Entry.Key) = [] := rfl
    rw [hz] at h3
    refine ⟨om2, h1, h3, ?_⟩
    have hc : (EntryIter om2).map Prod.fst = om2.data.map Entry.Key := by
      simp [EntryIter, List.map_map]
    rw [hc]
    exact h3
  · decide

/-- Claim C7: evaluation at the failing input.  The state after `set(1,10)`,
`set(2,20)`, `set(3,30)`, `delete(1)` is reachable and key 3 is present in
it (`has(3) == true`, recorded position 2), but `len() == 2`, so the
subsequent `set(3, 99)` executes `om.data[2] = entry` on a 2-element slice
and panics (modelled `none`) instead of overwriting in place and leaving
`len` and every `index_of` unchanged.  The stale recorded position is left
behind by `Delete`, which fails to reindex shifted entries. -/
theorem set_existing_after_delete_panics_eval :
    Option.map (fun st => (Has st 3, Index st 3, Len st))
      (runOps (New 0 : OrdMap Nat Nat) [.set 1 10, .set 2 20, .set 3 30, .del 1])
      = some (true, some 2, 2) ∧
    (runOps (New 0 : OrdMap Nat Nat)
      [.set 1 10, .set 2 20, .set 3 30, .del 1, .set 3 99]).isNone = true := by
  decide

/-- Claim C8: `delete` on a key absent from `lookup` returns the state
completely unchanged — in particular `len`, every stored value, and every
recorded position are unchanged — in every map state whatsoever. -/
theorem delete_absent_noop [DecidableEq K] (om : OrdMap K V) (k : K)
    (h : om.lookup k = none) : Delete om k = some om := by
  simp [Delete, h]

/-- Claim C8, witness: deleting key 5 from the fresh empty map. -/
theorem delete_absent_noop_witness :
    Delete (New 0 : OrdMap Nat Nat) 5 = some (New 0 : OrdMap Nat Nat) :=
  delete_absent_noop (New 0) 5 rfl

/-- Claim C9: in every map state, `BulkSet` with pairwise distinct keys none
of which is present loops over all the entries, appending every one of them
in argument order, after which each supplied key reads back its supplied
value; and `BulkSet` with zero entries is a no-op. -/
theorem bulkSet_fresh_all_applied [DecidableEq K] [Inhabited K] [Inhabited V]
    (om : OrdMap K V) (es : List (Entry K V))
    (hnd : (es.map Entry.Key).Nodup)
    (hfresh : ∀ e ∈ es, om.lookup e.Key = none) :
    BulkSet om [] = some om ∧
    ∃ om2, BulkSet om es = some om2 ∧ om2.data = om.data ++ es ∧
      Len om2 = Len om + es.length ∧
      ∀ e ∈ es, Get om2 e.Key = some (e.Value, true) := by
  refine ⟨rfl, ?_⟩
  obtain ⟨om2, h1, h2, _h3, h4⟩ := bulkSet_fresh es om hnd hfresh
  refine ⟨om2, h1, h2, ?_, h4⟩
  rw [Len, Len, h2]
  simp

/-- Claim C9, witness at the fresh empty map and two distinct fresh keys. -/
theorem bulkSet_fresh_all_applied_witness :
    BulkSet (New 0 : OrdMap Nat Nat) [] = some (New 0 : OrdMap Nat Nat) ∧
    ∃ om2, BulkSet (New 0 : OrdMap Nat Nat) [⟨1, 10⟩, ⟨2, 20⟩] = some om2 ∧
      om2.data = (New 0 : OrdMap Nat Nat).data ++ [⟨1, 10⟩, ⟨2, 20⟩] ∧
      Len om2 = Len (New 0 : OrdMap Nat Nat) + 2 ∧
      ∀ e ∈ ([⟨1, 10⟩, ⟨2, 20⟩] : List (Entry Nat Nat)),
        Get om2 e.Key = some (e.Value, true) :=
  bulkSet_fresh_all_applied (New 0) [⟨1, 10⟩, ⟨2, 20⟩] (by decide) (by decide)

/-- Claim C10: in every map state whose lookup stores only in-range
positions, `get` on a key with no recorded position returns exactly the pair
(zero value of V, false). -/
theorem get_absent_zero_false [DecidableEq K] [Inhabited K] [Inhabited V]
    (om : OrdMap K V) (k : K)
    (hvalid : ∀ q i, om.lookup q = some i → i < om.data.length)
    (h : om.lookup k = none) :
    Get om k = some (default, false) :=
  get_missing om k h

/-- Claim C10, witness at the fresh empty map and key 7. -/
theorem get_absent_zero_false_witness :
    Get (New 0 : OrdMap Nat Nat) 7 = some (default, false) :=
  get_absent_zero_false (New 0) 7 (fun _ _ h => Option.noConfusion h) rfl

end GoOrdmap
